import Mathlib

/-!
Verification of the membership-lifecycle and notification-scheduling core of
the Gym Management System (`app.js`).  The relational store is embedded as
Lean lists of records; the SQL bulk updates and queries of the scheduler are
embedded as list transformations; timestamps are integers (seconds), calendar
days are integers (day numbers), and decimal arithmetic is modelled over ℚ.
-/

namespace Gym

/-- Membership status column: `status ∈ {pending, active, expired}`. -/
inductive MStatus
  | pending
  | active
  | expired
deriving DecidableEq, Repr

/-- A row of the `memberships` table.  Dates (`start_date`, `end_date`) are
day numbers (`DATE` values), status is the lifecycle state. -/
structure Membership where
  id : Nat
  user_id : Nat
  plan_id : Nat
  start_date : Int
  end_date : Int
  status : MStatus
deriving DecidableEq, Repr

/-- First bulk update of `activateExpireTasks`:
`UPDATE memberships SET status='active' WHERE status='pending' AND start_date <= CURDATE()`,
expressed per row. -/
def activatePending (today : Int) (m : Membership) : Membership :=
  if m.status = MStatus.pending ∧ m.start_date ≤ today then
    { m with status := MStatus.active }
  else m

/-- Second bulk update of `activateExpireTasks`:
`UPDATE memberships SET status='expired' WHERE status='active' AND end_date < CURDATE()`,
expressed per row. -/
def expireActive (today : Int) (m : Membership) : Membership :=
  if m.status = MStatus.active ∧ m.end_date < today then
    { m with status := MStatus.expired }
  else m

/-- `activateExpireTasks` (`app.js` lines 949-952): the pending→active bulk
update runs first over the whole table, then the active→expired bulk update
runs over the already-updated table. -/
def activateExpireTasks (today : Int) (ms : List Membership) : List Membership :=
  (ms.map (activatePending today)).map (expireActive today)

/-- The effect of one `activateExpireTasks` pass on a single row: the two
updates composed in source order. -/
def lifecycleStep (today : Int) (m : Membership) : Membership :=
  expireActive today (activatePending today m)

theorem activateExpireTasks_eq_map (today : Int) (ms : List Membership) :
    activateExpireTasks today ms = ms.map (lifecycleStep today) := by
  simp [activateExpireTasks, lifecycleStep, List.map_map, Function.comp]

/-- A pending membership whose window already lies entirely in the past:
it is activated by the first update and immediately expired by the second. -/
def stalePendingRow : Membership :=
  { id := 1, user_id := 1, plan_id := 1, start_date := 0, end_date := 0,
    status := MStatus.pending }

/-- Claim C1 is false as stated: here is a membership with status pending and
start_date ≤ today (today = 5) which after `activateExpireTasks` has status
expired, not active — the second bulk update expires rows the first one just
activated, because it runs over the updated table. -/
theorem C1_counterexample :
    stalePendingRow.status = MStatus.pending ∧
    stalePendingRow.start_date ≤ 5 ∧
    activateExpireTasks 5 [stalePendingRow] =
      [{ stalePendingRow with status := MStatus.expired }] ∧
    MStatus.expired ≠ MStatus.active := by
  decide

/-- Claim C1 (amended): after `activateExpireTasks today`, the table is the
row-wise image of `lifecycleStep today`, under which a pending membership with
start_date ≤ today becomes active unless its end_date < today, in which case
it becomes expired; an active membership with end_date < today becomes
expired; and a membership matching neither predicate is unchanged. -/
theorem C1_amended (today : Int) (ms : List Membership) (m : Membership) :
    activateExpireTasks today ms = ms.map (lifecycleStep today) ∧
    (m.status = MStatus.pending → m.start_date ≤ today →
      (lifecycleStep today m).status =
        if m.end_date < today then MStatus.expired else MStatus.active) ∧
    (m.status = MStatus.active → m.end_date < today →
      (lifecycleStep today m).status = MStatus.expired) ∧
    (¬(m.status = MStatus.pending ∧ m.start_date ≤ today) →
     ¬(m.status = MStatus.active ∧ m.end_date < today) →
      lifecycleStep today m = m) := by
  refine ⟨activateExpireTasks_eq_map today ms, ?_, ?_, ?_⟩
  · intro hp hs
    by_cases he : m.end_date < today <;>
      simp [lifecycleStep, activatePending, expireActive, hp, hs, he]
  · intro ha he
    simp [lifecycleStep, activatePending, expireActive, ha, he]
  · intro h1 h2
    simp [lifecycleStep, activatePending, expireActive, h1, h2]

/-- A fresh pending membership used to instantiate `C1_amended`. -/
def freshPendingRow : Membership :=
  { id := 2, user_id := 1, plan_id := 1, start_date := 3, end_date := 9,
    status := MStatus.pending }

theorem C1_amended_witness :
    (lifecycleStep 5 freshPendingRow).status = MStatus.active := by
  have h := (C1_amended 5 [freshPendingRow] freshPendingRow).2.1
    (by decide) (by decide)
  simpa using h

theorem lifecycleStep_idem (today : Int) (m : Membership) :
    lifecycleStep today (lifecycleStep today m) = lifecycleStep today m := by
  rcases m with ⟨i, u, p, s, e, st⟩
  cases st <;>
    simp [lifecycleStep, activatePending, expireActive] <;>
    split_ifs <;> simp_all

/-- Claim C4: `activateExpireTasks` is idempotent — running the pass twice
with the same `today` leaves the same table as running it once. -/
theorem C4_idempotent (today : Int) (ms : List Membership) :
    activateExpireTasks today (activateExpireTasks today ms) =
      activateExpireTasks today ms := by
  rw [activateExpireTasks_eq_map, activateExpireTasks_eq_map, List.map_map]
  refine List.map_congr_left ?_
  intro m _
  simp only [Function.comp_apply]
  exact lifecycleStep_idem today m

/-- User role column: `role ∈ {member, admin}`. -/
inductive Role
  | member
  | admin
deriving DecidableEq, Repr

/-- A row of the `users` table, restricted to the columns the scheduling core
reads: id, role, and the deactivation flag `is_active`. -/
structure User where
  id : Nat
  role : Role
  is_active : Bool
deriving DecidableEq, Repr

/-- A row of the `membership_plans` table (columns the core reads). -/
structure Plan where
  id : Nat
  name : String
  duration_days : Nat
deriving DecidableEq, Repr

/-- A row of the `attendance` table, reduced to the owning user and the
calendar day `DATE(check_in)` used by the weekly count. -/
structure AttendanceEntry where
  user_id : Nat
  check_in_day : Int
deriving DecidableEq, Repr

/-- The weekly attendance count of `dailyNotificationTasks` (app.js 977-979):
`SELECT COUNT(*) FROM attendance WHERE user_id=? AND DATE(check_in) >=
(CURDATE() - INTERVAL 7 DAY)`. -/
def weeklyAttendanceCount (today : Int) (att : List AttendanceEntry) (uid : Nat) : Nat :=
  (att.filter (fun a => a.user_id == uid && decide (today - 7 ≤ a.check_in_day))).length

/-- The attendance half of `dailyNotificationTasks` (app.js 975-991): the
member scan `SELECT id FROM users WHERE role='member' AND is_active=1`
followed by the `count < 2` test that decides who is due a reminder. -/
def findDueAttendanceReminders (today : Int) (users : List User)
    (att : List AttendanceEntry) : List User :=
  (users.filter (fun u => u.role == Role.member && u.is_active)).filter
    (fun u => decide (weeklyAttendanceCount today att u.id < 2))

/-- Modelled from the claim's words, for comparison with the source query: a
trailing 7-day window with an EXCLUSIVE boundary at today − 7, so that
entries on day today − 7 itself are not counted. -/
def specWeeklyAttendanceCountExclusive (today : Int) (att : List AttendanceEntry)
    (uid : Nat) : Nat :=
  (att.filter (fun a => a.user_id == uid && decide (today - 7 < a.check_in_day))).length

/-- A non-deactivated member with two attendance entries exactly on the
boundary day today − 7 (today = 10, entries on day 3). -/
def borderMember : User := { id := 1, role := Role.member, is_active := true }

/-- The two boundary-day attendance entries of `borderMember`. -/
def borderAtts : List AttendanceEntry :=
  [{ user_id := 1, check_in_day := 3 }, { user_id := 1, check_in_day := 3 }]

/-- Claim C5 is false as stated: with the exclusive boundary the claim
describes, `borderMember` has 0 in-window entries (< 2) and so should be
selected, but the source query counts boundary-day entries (its comparison is
`DATE(check_in) >= CURDATE() - INTERVAL 7 DAY`, inclusive), finds 2, and
excludes the member. -/
theorem C5_counterexample :
    borderMember.role = Role.member ∧ borderMember.is_active = true ∧
    specWeeklyAttendanceCountExclusive 10 borderAtts borderMember.id < 2 ∧
    weeklyAttendanceCount 10 borderAtts borderMember.id = 2 ∧
    findDueAttendanceReminders 10 [borderMember] borderAtts = [] := by
  decide

/-- Claim C5 (amended): `findDueAttendanceReminders today` selects exactly the
non-deactivated members whose attendance-entry count in the trailing 7-day
window — INCLUSIVE of the boundary day today − 7 — is strictly below 2. -/
theorem C5_amended (today : Int) (users : List User) (att : List AttendanceEntry)
    (u : User) :
    u ∈ findDueAttendanceReminders today users att ↔
      u ∈ users ∧ u.role = Role.member ∧ u.is_active = true ∧
        weeklyAttendanceCount today att u.id < 2 := by
  simp only [findDueAttendanceReminders, List.mem_filter, Bool.and_eq_true,
    beq_iff_eq, decide_eq_true_eq, and_assoc]

/-- A result row of the renewal query: membership id, owning user id, plan
name and membership end date. -/
structure RenewalRow where
  membership_id : Nat
  user_id : Nat
  plan_name : String
  end_date : Int
deriving DecidableEq, Repr

/-- The renewal query of `dailyNotificationTasks` (app.js 954-959):
`SELECT m.id, u.id AS user_id, p.name AS plan_name, m.end_date FROM
memberships m JOIN users u ON u.id=m.user_id JOIN membership_plans p ON
p.id=m.plan_id WHERE u.is_active=1 AND m.status='active' AND
DATEDIFF(m.end_date, CURDATE()) IN (3,1,0)`. -/
def findDueRenewalReminders (today : Int) (users : List User) (plans : List Plan)
    (ms : List Membership) : List RenewalRow :=
  ms.flatMap (fun m =>
    (users.filter (fun u => u.id == m.user_id)).flatMap (fun u =>
      (plans.filter (fun p => p.id == m.plan_id)).filterMap (fun p =>
        if u.is_active = true ∧ m.status = MStatus.active ∧
            (m.end_date - today = 3 ∨ m.end_date - today = 1 ∨ m.end_date - today = 0) then
          some { membership_id := m.id, user_id := u.id, plan_name := p.name,
                 end_date := m.end_date }
        else none)))

/-- Claim C6: the renewal query returns exactly the rows built from an active
membership whose end_date − today is 3, 1 or 0 days, whose owning user row
exists and is non-deactivated, joined with its plan's name; memberships of
deactivated users and memberships at any other day-distance yield no row. -/
theorem C6_renewal_query (today : Int) (users : List User) (plans : List Plan)
    (ms : List Membership) (r : RenewalRow) :
    r ∈ findDueRenewalReminders today users plans ms ↔
      ∃ m ∈ ms, ∃ u ∈ users, ∃ p ∈ plans,
        u.id = m.user_id ∧ p.id = m.plan_id ∧
        u.is_active = true ∧ m.status = MStatus.active ∧
        (m.end_date - today = 3 ∨ m.end_date - today = 1 ∨ m.end_date - today = 0) ∧
        r = { membership_id := m.id, user_id := m.user_id, plan_name := p.name,
              end_date := m.end_date } := by
  simp only [findDueRenewalReminders, List.mem_flatMap, List.mem_filter,
    List.mem_filterMap, beq_iff_eq, Option.ite_none_right_eq_some,
    Option.some.injEq]
  constructor
  · rintro ⟨m, hm, u, ⟨hu, hui⟩, p, ⟨hp, hpi⟩, ⟨hact, hst, hd⟩, hr⟩
    exact ⟨m, hm, u, hu, p, hp, hui, hpi, hact, hst, hd, by rw [← hr, hui]⟩
  · rintro ⟨m, hm, u, hu, p, hp, hui, hpi, hact, hst, hd, hr⟩
    exact ⟨m, hm, u, ⟨hu, hui⟩, p, ⟨hp, hpi⟩, ⟨hact, hst, hd⟩, by rw [hr, hui]⟩

/-- Notification type column: `type ∈ {renewal, attendance, health, ...}`. -/
inductive NType
  | renewal
  | attendance
  | health
  | other
deriving DecidableEq, Repr

/-- A row of the `notifications` table; `created_at` is a timestamp in
seconds (the read flag plays no role in the scheduling core). -/
structure Notification where
  user_id : Nat
  ntype : NType
  message : String
  created_at : Int
deriving DecidableEq, Repr

/-- The calendar day of a timestamp, `DATE(t)`: floor division by the 86400
seconds of a day. -/
def dayOf (t : Int) : Int :=
  Int.fdiv t 86400

/-- `INSERT INTO notifications (user_id, type, message) VALUES (?, ?, ?)`
with `created_at` defaulting to the current time. -/
def insertNotification (store : List Notification) (uid : Nat) (ty : NType)
    (msg : String) (now : Int) : List Notification :=
  store ++ [{ user_id := uid, ntype := ty, message := msg, created_at := now }]

/-- Renewal dedupe check of `dailyNotificationTasks` (app.js 962-966):
`SELECT id FROM notifications WHERE user_id=? AND type='renewal' AND
DATE(created_at)=CURDATE() LIMIT 1` is non-empty. -/
def renewalDupe (store : List Notification) (uid : Nat) (now : Int) : Bool :=
  store.any (fun n =>
    n.user_id == uid && n.ntype == NType.renewal && dayOf n.created_at == dayOf now)

/-- Attendance dedupe check of `dailyNotificationTasks` (app.js 982-986):
`SELECT id FROM notifications WHERE user_id=? AND type='attendance' AND
created_at >= (NOW() - INTERVAL 7 DAY) LIMIT 1` is non-empty. -/
def attendanceDupe (store : List Notification) (uid : Nat) (now : Int) : Bool :=
  store.any (fun n =>
    n.user_id == uid && n.ntype == NType.attendance &&
      decide (now - 7 * 86400 ≤ n.created_at))

/-- The renewal dedupe-check-then-insert of `dailyNotificationTasks`
(app.js 961-974), at store level: insert only when no same-day renewal
notification for the user exists. -/
def notifyRenewalOnce (store : List Notification) (uid : Nat) (msg : String)
    (now : Int) : List Notification :=
  if renewalDupe store uid now then store
  else insertNotification store uid NType.renewal msg now

/-- The attendance dedupe-check-then-insert of `dailyNotificationTasks`
(app.js 982-989): insert only when no attendance notification for the user
exists within the trailing 7 days. -/
def notifyAttendanceOnce (store : List Notification) (uid : Nat) (msg : String)
    (now : Int) : List Notification :=
  if attendanceDupe store uid now then store
  else insertNotification store uid NType.attendance msg now

/-- Number of notification rows a user holds of a given type. -/
def notificationCount (store : List Notification) (uid : Nat) (ty : NType) : Nat :=
  (store.filter (fun n => n.user_id == uid && n.ntype == ty)).length

theorem renewalDupe_append (store : List Notification) (n : Notification)
    (uid : Nat) (now : Int) :
    renewalDupe (store ++ [n]) uid now =
      (renewalDupe store uid now ||
        (n.user_id == uid && n.ntype == NType.renewal &&
          dayOf n.created_at == dayOf now)) := by
  simp [renewalDupe, List.any_append]

theorem attendanceDupe_append (store : List Notification) (n : Notification)
    (uid : Nat) (now : Int) :
    attendanceDupe (store ++ [n]) uid now =
      (attendanceDupe store uid now ||
        (n.user_id == uid && n.ntype == NType.attendance &&
          decide (now - 7 * 86400 ≤ n.created_at))) := by
  simp [attendanceDupe, List.any_append]

theorem notificationCount_insert_same (store : List Notification) (uid : Nat)
    (ty : NType) (msg : String) (t : Int) :
    notificationCount (insertNotification store uid ty msg t) uid ty =
      notificationCount store uid ty + 1 := by
  simp [notificationCount, insertNotification, List.filter_append]

theorem notifyRenewalOnce_of_dupe (store : List Notification) (uid : Nat)
    (msg : String) (now : Int) (h : renewalDupe store uid now = true) :
    notifyRenewalOnce store uid msg now = store := by
  simp [notifyRenewalOnce, h]

theorem notifyRenewalOnce_of_fresh (store : List Notification) (uid : Nat)
    (msg : String) (now : Int) (h : renewalDupe store uid now = false) :
    notifyRenewalOnce store uid msg now =
      insertNotification store uid NType.renewal msg now := by
  simp [notifyRenewalOnce, h]

theorem notifyAttendanceOnce_of_dupe (store : List Notification) (uid : Nat)
    (msg : String) (now : Int) (h : attendanceDupe store uid now = true) :
    notifyAttendanceOnce store uid msg now = store := by
  simp [notifyAttendanceOnce, h]

theorem notifyAttendanceOnce_of_fresh (store : List Notification) (uid : Nat)
    (msg : String) (now : Int) (h : attendanceDupe store uid now = false) :
    notifyAttendanceOnce store uid msg now =
      insertNotification store uid NType.attendance msg now := by
  simp [notifyAttendanceOnce, h]

/-- Claim C2: (a) a second renewal dedupe-check-then-insert for the same user
on the same calendar day is a no-op on the store; (b) when the first
attendance call actually inserts, a second attendance call within the 7-day
window leaves exactly one new row; (c) a second attendance call strictly
after the 7-day window inserts a second row. -/
theorem C2_notifyOnce_dedupe (store : List Notification) (uid : Nat)
    (m1 m2 : String) (t1 t2 : Int) :
    (dayOf t1 = dayOf t2 →
      notifyRenewalOnce (notifyRenewalOnce store uid m1 t1) uid m2 t2 =
        notifyRenewalOnce store uid m1 t1) ∧
    (attendanceDupe store uid t1 = false → t1 ≤ t2 → t2 - t1 ≤ 7 * 86400 →
      notificationCount
          (notifyAttendanceOnce (notifyAttendanceOnce store uid m1 t1) uid m2 t2)
          uid NType.attendance =
        notificationCount store uid NType.attendance + 1) ∧
    (attendanceDupe store uid t1 = false → 7 * 86400 < t2 - t1 →
      notificationCount
          (notifyAttendanceOnce (notifyAttendanceOnce store uid m1 t1) uid m2 t2)
          uid NType.attendance =
        notificationCount store uid NType.attendance + 2) := by
  refine ⟨?_, ?_, ?_⟩
  · intro hday
    cases hd : renewalDupe store uid t1 with
    | true =>
      have hd2 : renewalDupe store uid t2 = true := by
        unfold renewalDupe at hd ⊢
        rw [← hday]
        exact hd
      rw [notifyRenewalOnce_of_dupe store uid m1 t1 hd,
        notifyRenewalOnce_of_dupe store uid m2 t2 hd2]
    | false =>
      rw [notifyRenewalOnce_of_fresh store uid m1 t1 hd]
      have hd2 : renewalDupe
          (insertNotification store uid NType.renewal m1 t1) uid t2 = true := by
        rw [insertNotification, renewalDupe_append, Bool.or_eq_true]
        right
        simp only [beq_self_eq_true, Bool.true_and]
        exact beq_iff_eq.mpr hday
      rw [notifyRenewalOnce_of_dupe _ uid m2 t2 hd2]
  · intro h1 hle hwin
    rw [notifyAttendanceOnce_of_fresh store uid m1 t1 h1]
    have hd2 : attendanceDupe
        (insertNotification store uid NType.attendance m1 t1) uid t2 = true := by
      rw [insertNotification, attendanceDupe_append, Bool.or_eq_true]
      right
      simp only [beq_self_eq_true, Bool.true_and, decide_eq_true_eq]
      omega
    rw [notifyAttendanceOnce_of_dupe _ uid m2 t2 hd2,
      notificationCount_insert_same]
  · intro h1 hout
    rw [notifyAttendanceOnce_of_fresh store uid m1 t1 h1]
    have hold : attendanceDupe store uid t2 = false := by
      simp only [attendanceDupe, List.any_eq_false, Bool.and_eq_true,
        beq_iff_eq, decide_eq_true_eq, not_and, not_le] at h1 ⊢
      intro n hn hcond
      have := h1 n hn hcond
      omega
    have hd2 : attendanceDupe
        (insertNotification store uid NType.attendance m1 t1) uid t2 = false := by
      rw [insertNotification, attendanceDupe_append, hold, Bool.false_or]
      simp only [beq_self_eq_true, Bool.true_and, decide_eq_false_iff_not]
      omega
    rw [notifyAttendanceOnce_of_fresh _ uid m2 t2 hd2,
      notificationCount_insert_same, notificationCount_insert_same]

theorem C2_notifyOnce_dedupe_witness :
    notifyRenewalOnce (notifyRenewalOnce [] 1 "renew soon" 86400) 1
        "renew soon" 90000 =
      notifyRenewalOnce [] 1 "renew soon" 86400 ∧
    notificationCount
        (notifyAttendanceOnce (notifyAttendanceOnce [] 1 "we miss you" 86400) 1
          "we miss you" (5 * 86400))
        1 NType.attendance = notificationCount [] 1 NType.attendance + 1 ∧
    notificationCount
        (notifyAttendanceOnce (notifyAttendanceOnce [] 1 "we miss you" 86400) 1
          "we miss you" (9 * 86400))
        1 NType.attendance = notificationCount [] 1 NType.attendance + 2 := by
  refine ⟨(C2_notifyOnce_dedupe [] 1 "renew soon" "renew soon" 86400 90000).1
      (by decide),
    (C2_notifyOnce_dedupe [] 1 "we miss you" "we miss you" 86400
      (5 * 86400)).2.1 (by decide) (by decide) (by decide),
    (C2_notifyOnce_dedupe [] 1 "we miss you" "we miss you" 86400
      (9 * 86400)).2.2 (by decide) (by decide)⟩

/-- `sendEmail` (app.js 64-78): the whole transport interaction sits inside
try/catch (a failure is only logged), so the call returns normally whatever
the transport outcome. -/
def sendEmail (transport : Except String Unit) : Except String Unit :=
  match transport with
  | Except.ok _ => Except.ok ()
  | Except.error _ => Except.ok ()

/-- `addNotification` (app.js 182-212): first insert the notification row,
then — inside try/catch — look the user's email up and, if present, send the
message; any failure of the lookup or of the send is swallowed.  Returns the
new store together with the call's outcome. -/
def addNotification (store : List Notification) (uid : Nat) (ty : NType)
    (msg : String) (now : Int) (emailLookup : Except String (Option String))
    (transport : Except String Unit) : List Notification × Except String Unit :=
  let store1 := insertNotification store uid ty msg now
  let emailAttempt : Except String Unit :=
    match emailLookup with
    | Except.error e => Except.error e
    | Except.ok none => Except.ok ()
    | Except.ok (some _) => sendEmail transport
  match emailAttempt with
  | Except.ok _ => (store1, Except.ok ())
  | Except.error _ => (store1, Except.ok ())

/-- Claim C7: a failing external send (`transport = error e`) is swallowed by
`addNotification` — the row inserted before the send attempt stays in the
store and the call returns without raising, for every store, user, type,
message and email-lookup outcome. -/
theorem C7_send_failure_swallowed (store : List Notification) (uid : Nat)
    (ty : NType) (msg : String) (now : Int)
    (emailLookup : Except String (Option String)) (e : String) :
    (addNotification store uid ty msg now emailLookup (Except.error e)).1 =
      store ++ [⟨uid, ty, msg, now⟩] ∧
    (addNotification store uid ty msg now emailLookup (Except.error e)).2 =
      Except.ok () := by
  rcases emailLookup with e' | o
  · simp [addNotification, insertNotification]
  · rcases o with _ | s <;> simp [addNotification, insertNotification, sendEmail]

/-- A wall-clock reading as the scheduler sees it: the calendar-day key
`todayKey(now)` (app.js 945-948) and the hour `now.getHours()`. -/
structure ClockTime where
  day : Int
  hour : Nat
deriving DecidableEq, Repr

/-- The daily-run gate predicate of `runHourlyTasks` (app.js 1000):
`hour >= DAILY_RUN_HOUR && lastDailyRunKey !== key`. -/
def shouldRunDaily (H : Nat) (lastKey : Option Int) (t : ClockTime) : Bool :=
  decide (H ≤ t.hour) && lastKey != some t.day

/-- One hourly tick of `runHourlyTasks` (app.js 994-1007) from the gate's
viewpoint: `jobOk` says whether `dailyNotificationTasks` would complete if
invoked.  Returns the new `lastDailyRunKey` and the pair (body invoked, body
completed): the body is invoked iff the gate admits it, and the key advances
to today's key only when the invoked body completes — an exception leaves it
unchanged (the surrounding try/catch). -/
def hourlyTick (H : Nat) (lastKey : Option Int) (t : ClockTime) (jobOk : Bool) :
    Option Int × Bool × Bool :=
  if shouldRunDaily H lastKey t then
    (if jobOk then some t.day else lastKey, true, jobOk)
  else (lastKey, false, false)

/-- A sequence of hourly ticks threaded through the gate state, collecting
per-tick (invoked, completed) flags. -/
def runTicks (H : Nat) : Option Int → List (ClockTime × Bool) →
    Option Int × List (Bool × Bool)
  | key, [] => (key, [])
  | key, (t, jobOk) :: rest =>
    ((runTicks H (hourlyTick H key t jobOk).1 rest).1,
      (hourlyTick H key t jobOk).2 ::
        (runTicks H (hourlyTick H key t jobOk).1 rest).2)

/-- Claim C3 is false as stated: two hourly ticks on the same day (hours 9
and 10, configured hour 9), where the first invocation of the daily body
fails — the key is left unchanged, the gate re-admits at the next tick, and
the body executes twice within one calendar day. -/
theorem C3_counterexample :
    ¬ ((runTicks 9 none
          [({ day := 0, hour := 9 }, false), ({ day := 0, hour := 10 }, true)]).2.countP
        (fun f => f.1) ≤ 1) := by
  decide

theorem runTicks_after_done (H : Nat) (d : Int) (ticks : List (ClockTime × Bool))
    (hd : ∀ tk ∈ ticks, tk.1.day = d) :
    runTicks H (some d) ticks = (some d, ticks.map (fun _ => (false, false))) := by
  revert hd
  induction ticks with
  | nil => intro _; rfl
  | cons tk rest ih =>
    intro hd
    obtain ⟨t, jobOk⟩ := tk
    have ht : t.day = d := hd (t, jobOk) (List.mem_cons_self _ _)
    have hs : shouldRunDaily H (some d) t = false := by
      simp [shouldRunDaily, ht]
    have ihr := ih (fun tk hk => hd tk (List.mem_cons_of_mem _ hk))
    simp [runTicks, hourlyTick, hs, ihr]

theorem runTicks_success_le_one (H : Nat) (d : Int)
    (ticks : List (ClockTime × Bool)) :
    ∀ key : Option Int, (∀ tk ∈ ticks, tk.1.day = d) →
      (runTicks H key ticks).2.countP (fun f => f.2) ≤ 1 := by
  induction ticks with
  | nil => intro key _; simp [runTicks]
  | cons tk rest ih =>
    intro key hd
    obtain ⟨t, jobOk⟩ := tk
    have ht : t.day = d := hd (t, jobOk) (List.mem_cons_self _ _)
    have hrest : ∀ tk ∈ rest, tk.1.day = d :=
      fun tk hk => hd tk (List.mem_cons_of_mem _ hk)
    cases hs : shouldRunDaily H key t with
    | false =>
      have hr := ih key hrest
      simpa [runTicks, hourlyTick, hs, List.countP_cons] using hr
    | true =>
      cases jobOk with
      | false =>
        have hr := ih key hrest
        simpa [runTicks, hourlyTick, hs, List.countP_cons] using hr
      | true =>
        have hdone := runTicks_after_done H d rest hrest
        rw [← ht] at hdone
        simp [runTicks, hourlyTick, hs, hdone, List.countP_cons,
          List.countP_map]

theorem runTicks_hour_bound (H : Nat) (ticks : List (ClockTime × Bool)) :
    ∀ key : Option Int,
      List.Forall₂ (fun (tk : ClockTime × Bool) (f : Bool × Bool) =>
          f.1 = true → H ≤ tk.1.hour)
        ticks (runTicks H key ticks).2 := by
  induction ticks with
  | nil => intro key; simp [runTicks]
  | cons tk rest ih =>
    intro key
    obtain ⟨t, jobOk⟩ := tk
    simp only [runTicks]
    refine List.Forall₂.cons ?_ (ih _)
    cases hs : shouldRunDaily H key t with
    | false => simp [hourlyTick, hs]
    | true =>
      intro _
      have hh := hs
      simp only [shouldRunDaily, Bool.and_eq_true, decide_eq_true_eq] at hh
      exact hh.1

/-- Claim C3 (amended): over ticks within one calendar day, the daily job
body COMPLETES at most once (a failed invocation may be retried, since the
key is left unchanged on failure); the body is never invoked at a tick whose
hour is below the configured hour; the gate admits execution iff
`hour ≥ configuredHour` and the last-completion key differs from today's
key; and the key advances to today's key exactly when the invoked body
completes, staying unchanged otherwise. -/
theorem C3_amended (H : Nat) (key : Option Int) (d : Int)
    (ticks : List (ClockTime × Bool)) (t : ClockTime) (jobOk : Bool)
    (hd : ∀ tk ∈ ticks, tk.1.day = d) :
    (runTicks H key ticks).2.countP (fun f => f.2) ≤ 1 ∧
    List.Forall₂ (fun (tk : ClockTime × Bool) (f : Bool × Bool) =>
        f.1 = true → H ≤ tk.1.hour)
      ticks (runTicks H key ticks).2 ∧
    (shouldRunDaily H key t = true ↔ (H ≤ t.hour ∧ key ≠ some t.day)) ∧
    (hourlyTick H key t jobOk).2.1 = shouldRunDaily H key t ∧
    (hourlyTick H key t jobOk).1 =
      (if (hourlyTick H key t jobOk).2.2 = true then some t.day else key) := by
  refine ⟨runTicks_success_le_one H d ticks key hd,
    runTicks_hour_bound H ticks key, ?_, ?_, ?_⟩
  · simp [shouldRunDaily, bne_iff_ne]
  · cases hs : shouldRunDaily H key t <;> simp [hourlyTick, hs]
  · cases hs : shouldRunDaily H key t <;> cases jobOk <;> simp [hourlyTick, hs]

theorem C3_amended_witness :
    (runTicks 9 none
        [({ day := 0, hour := 8 }, true), ({ day := 0, hour := 9 }, true),
         ({ day := 0, hour := 10 }, true)]).2.countP (fun f => f.2) ≤ 1 := by
  exact (C3_amended 9 none 0
    [({ day := 0, hour := 8 }, true), ({ day := 0, hour := 9 }, true),
     ({ day := 0, hour := 10 }, true)] { day := 0, hour := 10 } true
    (by decide)).1

/-- Accumulator step selecting the membership with the later end_date (the
first one on ties), realizing `ORDER BY end_date DESC LIMIT 1`. -/
def pickLater (acc : Option Membership) (m : Membership) : Option Membership :=
  match acc with
  | none => some m
  | some b => if b.end_date < m.end_date then some m else some b

/-- The query of `POST /subscribe` (app.js 444-449): `SELECT * FROM
memberships WHERE user_id=? AND status='active' AND end_date >= CURDATE()
ORDER BY end_date DESC LIMIT 1`. -/
def latestActiveMembership (today : Int) (uid : Nat) (ms : List Membership) :
    Option Membership :=
  (ms.filter (fun m =>
      m.user_id == uid && m.status == MStatus.active &&
        decide (today ≤ m.end_date))).foldl pickLater none

/-- The membership row `POST /subscribe` (app.js 437-469) inserts for an
existing plan: chained pending after the latest future-reaching active
membership when one exists, otherwise active starting today.  In both
branches the SQL computes `end_date = start_date + (duration_days - 1)`. -/
def subscribe (today : Int) (uid : Nat) (plan : Plan) (ms : List Membership) :
    Membership :=
  match latestActiveMembership today uid ms with
  | some act =>
    { id := 0, user_id := uid, plan_id := plan.id,
      start_date := act.end_date + 1,
      end_date := act.end_date + 1 + ((plan.duration_days : Int) - 1),
      status := MStatus.pending }
  | none =>
    { id := 0, user_id := uid, plan_id := plan.id,
      start_date := today,
      end_date := today + ((plan.duration_days : Int) - 1),
      status := MStatus.active }

theorem foldl_pickLater_some (l : List Membership) :
    ∀ b0 : Membership, ∃ b : Membership,
      l.foldl pickLater (some b0) = some b ∧ b ∈ b0 :: l ∧
      b0.end_date ≤ b.end_date ∧ ∀ m ∈ l, m.end_date ≤ b.end_date := by
  induction l with
  | nil =>
    intro b0
    exact ⟨b0, rfl, List.mem_cons_self _ _, le_refl _, by simp⟩
  | cons m l ih =>
    intro b0
    by_cases hlt : b0.end_date < m.end_date
    · obtain ⟨b, hb, hmem, hle, hall⟩ := ih m
      refine ⟨b, ?_, ?_, ?_, ?_⟩
      · simpa [List.foldl_cons, pickLater, hlt] using hb
      · rcases List.mem_cons.mp hmem with h | h
        · exact List.mem_cons_of_mem _ (h ▸ List.mem_cons_self _ _)
        · exact List.mem_cons_of_mem _ (List.mem_cons_of_mem _ h)
      · exact le_of_lt (lt_of_lt_of_le hlt hle)
      · intro x hx
        rcases List.mem_cons.mp hx with h | h
        · exact h ▸ hle
        · exact hall x h
    · obtain ⟨b, hb, hmem, hle, hall⟩ := ih b0
      refine ⟨b, ?_, ?_, hle, ?_⟩
      · simpa [List.foldl_cons, pickLater, hlt] using hb
      · rcases List.mem_cons.mp hmem with h | h
        · exact h ▸ List.mem_cons_self _ _
        · exact List.mem_cons_of_mem _ (List.mem_cons_of_mem _ h)
      · intro x hx
        rcases List.mem_cons.mp hx with h | h
        · exact h ▸ le_trans (not_lt.mp hlt) hle
        · exact hall x h

theorem latestActive_some (today : Int) (uid : Nat) (ms : List Membership)
    (b : Membership) (h : latestActiveMembership today uid ms = some b) :
    b ∈ ms ∧ b.user_id = uid ∧ b.status = MStatus.active ∧ today ≤ b.end_date ∧
      ∀ m ∈ ms, m.user_id = uid → m.status = MStatus.active →
        today ≤ m.end_date → m.end_date ≤ b.end_date := by
  unfold latestActiveMembership at h
  set l := ms.filter (fun m =>
    m.user_id == uid && m.status == MStatus.active &&
      decide (today ≤ m.end_date)) with hl
  have hmeml : ∀ x ∈ l, x ∈ ms ∧ x.user_id = uid ∧ x.status = MStatus.active ∧
      today ≤ x.end_date := by
    intro x hx
    rw [hl, List.mem_filter] at hx
    simp only [Bool.and_eq_true, beq_iff_eq, decide_eq_true_eq] at hx
    exact ⟨hx.1, hx.2.1.1, hx.2.1.2, hx.2.2⟩
  have hinl : ∀ m ∈ ms, m.user_id = uid → m.status = MStatus.active →
      today ≤ m.end_date → m ∈ l := by
    intro m hm h1 h2 h3
    rw [hl, List.mem_filter]
    simp only [Bool.and_eq_true, beq_iff_eq, decide_eq_true_eq]
    exact ⟨hm, ⟨h1, h2⟩, h3⟩
  cases hc : l with
  | nil => rw [hc] at h; exact absurd h (by simp)
  | cons x xs =>
    rw [hc] at h
    rw [List.foldl_cons] at h
    have hx0 : pickLater none x = some x := rfl
    rw [hx0] at h
    obtain ⟨bm, hb, hmem, hle, hall⟩ := foldl_pickLater_some xs x
    rw [hb] at h
    obtain rfl : bm = b := Option.some.inj h
    have hbinl : bm ∈ l := by rw [hc]; exact hmem
    obtain ⟨h1, h2, h3, h4⟩ := hmeml bm hbinl
    refine ⟨h1, h2, h3, h4, ?_⟩
    intro m hm hm1 hm2 hm3
    have hminl : m ∈ l := hinl m hm hm1 hm2 hm3
    rw [hc] at hminl
    rcases List.mem_cons.mp hminl with h' | h'
    · subst h'
      exact hle
    · exact hall m h'

theorem latestActive_none (today : Int) (uid : Nat) (ms : List Membership)
    (h : latestActiveMembership today uid ms = none) :
    ∀ m ∈ ms, ¬(m.user_id = uid ∧ m.status = MStatus.active ∧
      today ≤ m.end_date) := by
  intro m hm hcond
  unfold latestActiveMembership at h
  have hml : m ∈ ms.filter (fun m =>
      m.user_id == uid && m.status == MStatus.active &&
        decide (today ≤ m.end_date)) := by
    rw [List.mem_filter]
    simp only [Bool.and_eq_true, beq_iff_eq, decide_eq_true_eq]
    exact ⟨hm, ⟨hcond.1, hcond.2.1⟩, hcond.2.2⟩
  cases hc : ms.filter (fun m =>
      m.user_id == uid && m.status == MStatus.active &&
        decide (today ≤ m.end_date)) with
  | nil => rw [hc] at hml; exact absurd hml (by simp)
  | cons x xs =>
    rw [hc, List.foldl_cons] at h
    have hx0 : pickLater none x = some x := rfl
    rw [hx0] at h
    obtain ⟨b, hb, _, _, _⟩ := foldl_pickLater_some xs x
    rw [hb] at h
    exact Option.noConfusion h

/-- Claim C8: subscribing to an existing plan creates — when the user holds
an active membership with end_date ≥ today — a pending membership starting
the day after the latest such membership's end_date, and otherwise an active
membership starting today; in both branches end_date = start_date +
(duration_days − 1), so end_date ≥ start_date for positive durations. -/
theorem C8_subscribe (today : Int) (uid : Nat) (plan : Plan)
    (ms : List Membership) (hdur : 1 ≤ plan.duration_days) :
    ((∃ m ∈ ms, m.user_id = uid ∧ m.status = MStatus.active ∧
        today ≤ m.end_date) →
      (subscribe today uid plan ms).status = MStatus.pending ∧
      ∃ m ∈ ms, (m.user_id = uid ∧ m.status = MStatus.active ∧
          today ≤ m.end_date) ∧
        (subscribe today uid plan ms).start_date = m.end_date + 1 ∧
        ∀ m2 ∈ ms, m2.user_id = uid → m2.status = MStatus.active →
          today ≤ m2.end_date → m2.end_date ≤ m.end_date) ∧
    ((¬ ∃ m ∈ ms, m.user_id = uid ∧ m.status = MStatus.active ∧
        today ≤ m.end_date) →
      (subscribe today uid plan ms).status = MStatus.active ∧
      (subscribe today uid plan ms).start_date = today) ∧
    (subscribe today uid plan ms).end_date =
      (subscribe today uid plan ms).start_date +
        ((plan.duration_days : Int) - 1) ∧
    (subscribe today uid plan ms).start_date ≤
      (subscribe today uid plan ms).end_date := by
  have hdi : (1 : Int) ≤ (plan.duration_days : Int) := by exact_mod_cast hdur
  cases hlam : latestActiveMembership today uid ms with
  | none =>
    have hno := latestActive_none today uid ms hlam
    refine ⟨?_, ?_, ?_, ?_⟩
    · rintro ⟨m, hm, hcond⟩
      exact absurd hcond (hno m hm)
    · intro _
      constructor <;> simp [subscribe, hlam]
    · simp [subscribe, hlam]
    · simp only [subscribe, hlam]
      omega
  | some act =>
    obtain ⟨hmem, hu, hst, hend, hmax⟩ := latestActive_some today uid ms act hlam
    refine ⟨?_, ?_, ?_, ?_⟩
    · intro _
      refine ⟨by simp [subscribe, hlam], act, hmem, ⟨hu, hst, hend⟩, ?_, hmax⟩
      simp [subscribe, hlam]
    · intro hno
      exact absurd ⟨act, hmem, hu, hst, hend⟩ hno
    · simp [subscribe, hlam]
    · simp only [subscribe, hlam]
      omega

/-- A plan used to instantiate `C8_subscribe`. -/
def monthlyPlan : Plan := { id := 1, name := "Monthly", duration_days := 30 }

theorem C8_subscribe_witness :
    (subscribe 100 1 monthlyPlan []).status = MStatus.active ∧
    (subscribe 100 1 monthlyPlan []).start_date = 100 ∧
    (subscribe 100 1 monthlyPlan []).end_date =
      (subscribe 100 1 monthlyPlan []).start_date +
        ((monthlyPlan.duration_days : Int) - 1) ∧
    (subscribe 100 1 monthlyPlan []).start_date ≤
      (subscribe 100 1 monthlyPlan []).end_date := by
  have h := C8_subscribe 100 1 monthlyPlan [] (by decide)
  have hempty : ¬ ∃ m ∈ ([] : List Membership), m.user_id = 1 ∧
      m.status = MStatus.active ∧ (100 : Int) ≤ m.end_date := by simp
  exact ⟨(h.2.1 hempty).1, (h.2.1 hempty).2, h.2.2.1, h.2.2.2⟩

/-- `Number(x.toFixed(2))` for the nonnegative values BMI takes, over exact
rationals: round half up at the second decimal. -/
def round2 (q : ℚ) : ℚ :=
  (⌊q * 100 + 1 / 2⌋ : ℚ) / 100

/-- `calcBMI` (app.js 176-181) over exact rationals, with a JS-missing-or-
falsy numeric input embedded as `none` or `some 0`: `!height_cm ||
!weight_kg` returns null, `h = height_cm / 100` with a second `!h` guard,
and otherwise BMI is `weight / (h * h)` rounded to 2 decimals. -/
def calcBMI (height_cm weight_kg : Option ℚ) : Option ℚ :=
  match height_cm, weight_kg with
  | some hc, some wk =>
    if hc = 0 ∨ wk = 0 then none
    else if hc / 100 = 0 then none
    else some (round2 (wk / (hc / 100 * (hc / 100))))
  | _, _ => none

/-- The input normalization of `POST /health` (app.js 549-552):
`x ? Number(x) : null` — an absent or zero (falsy) field becomes null. -/
def normalizeInput (x : Option ℚ) : Option ℚ :=
  match x with
  | some v => if v = 0 then none else some v
  | none => none

/-- The height fallback of `POST /health` (app.js 555-561): when the
submitted height is falsy, the most recent prior non-null height is used via
`last?.height_cm || null` (a falsy prior value also becomes null). -/
def resolveHeight (submitted prior : Option ℚ) : Option ℚ :=
  match normalizeInput submitted with
  | some h => some h
  | none =>
    match prior with
    | some p => if p = 0 then none else some p
    | none => none

/-- The BMI stored by `POST /health` (app.js 538-577): normalize both
inputs, resolve the height through the fallback, then `calcBMI`. -/
def postHealthBMI (weight_kg height_cm prior : Option ℚ) : Option ℚ :=
  calcBMI (resolveHeight height_cm prior) (normalizeInput weight_kg)

/-- Claim C9: with both inputs present (non-zero), the stored BMI is
weight / (height in metres)² rounded to 2 decimals; height 180 cm with
weight 81 kg gives exactly 25.00; and a missing weight, or a height missing
even after the fallback to the prior known height, stores a null BMI. -/
theorem C9_bmi_formula :
    (∀ (hc wk : ℚ) (prior : Option ℚ), hc ≠ 0 → wk ≠ 0 →
        postHealthBMI (some wk) (some hc) prior =
          some (round2 (wk / (hc / 100 * (hc / 100))))) ∧
    postHealthBMI (some 81) (some 180) none = some 25 ∧
    (∀ (h prior : Option ℚ), postHealthBMI none h prior = none) ∧
    (∀ (w prior : Option ℚ), prior = none ∨ prior = some 0 →
        postHealthBMI w none prior = none) := by
  refine ⟨?_, ?_, ?_, ?_⟩
  · intro hc wk prior hhc hwk
    have h100 : hc / 100 ≠ 0 := by
      simp [div_eq_zero_iff, hhc]
    simp [postHealthBMI, resolveHeight, normalizeInput, calcBMI, hhc, hwk, h100]
  · simp [postHealthBMI, resolveHeight, normalizeInput, calcBMI]
    norm_num [round2]
  · intro h prior
    rcases h with _ | hv <;>
      simp [postHealthBMI, resolveHeight, normalizeInput, calcBMI]
  · rintro w prior (rfl | rfl) <;>
      simp [postHealthBMI, resolveHeight, normalizeInput, calcBMI]

theorem C9_bmi_formula_witness :
    postHealthBMI (some 81) (some 180) none =
      some (round2 (81 / ((180 : ℚ) / 100 * (180 / 100)))) := by
  exact C9_bmi_formula.1 180 81 none (by norm_num) (by norm_num)

/-- Claim C10: `calcBMI` is a total function and returns null exactly when
an input is missing or zero (falsy) — in particular a zero height never
reaches the division. -/
theorem C10_calcBMI_total (h w : Option ℚ) :
    calcBMI h w = none ↔
      (h = none ∨ h = some 0 ∨ w = none ∨ w = some 0) := by
  rcases h with _ | hv
  · simp [calcBMI]
  rcases w with _ | wv
  · simp [calcBMI]
  · constructor
    · intro hnone
      by_cases h1 : hv = 0 ∨ wv = 0
      · rcases h1 with h1 | h1
        · exact Or.inr (Or.inl (by rw [h1]))
        · exact Or.inr (Or.inr (Or.inr (by rw [h1])))
      · exfalso
        have hh : ¬ hv = 0 := (not_or.mp h1).1
        have h2 : ¬ hv / 100 = 0 := by simp [div_eq_zero_iff, hh]
        simp [calcBMI, h1, h2] at hnone
    · intro hc
      have h1 : hv = 0 ∨ wv = 0 := by
        rcases hc with hc | hc | hc | hc
        · exact absurd hc (by simp)
        · exact Or.inl (Option.some.inj hc)
        · exact absurd hc (by simp)
        · exact Or.inr (Option.some.inj hc)
      simp [calcBMI, h1]

end Gym
